import Mathlib

/-!
Verification of the ADP delegation-protocol repository: the routing and
selection engine (worker registry, health tracking, weighted and round-robin
selection, load accounting, validation fan-out) and the HTTP handler layer
of `src/app.py`.

The routing core lives in the module `adp_demo_script`, which the repository
imports but whose file is not part of the source tree here; its operations
are therefore modelled from the specification (each such definition carries a
doc comment starting `Modelled from the spec:`).  The HTTP handlers are
embedded from `src/app.py` directly, with the external controller abstracted
as a state-passing function that may fail.
-/

namespace ADP

/-- Modelled from the spec: health status of a worker,
one of Healthy, Degraded, Unavailable. -/
inductive NMStatus where
  | healthy
  | degraded
  | unavailable
deriving DecidableEq, Repr

/-- Modelled from the spec: one backend processing unit ("Narrow Model"),
with identity, static profile and mutable runtime state.  Latencies,
weights, accuracies and timestamps are modelled as rationals. -/
structure Worker where
  id : String
  category : String
  base_weight : ℚ
  avg_latency_ms : ℚ
  accuracy_score : ℚ
  current_load : Nat
  max_concurrent : Nat
  status : NMStatus
  last_probe : ℚ
deriving DecidableEq, Repr

/-- Modelled from the spec: the worker registry with category pools
(ordered id lists) and one round-robin cursor per category. -/
structure Registry where
  workers : List Worker
  pools : List (String × List String)
  cursors : List (String × Nat)
deriving DecidableEq, Repr

/-- Modelled from the spec: an ephemeral routing request. -/
structure RoutingRequest where
  request_id : String
  category : String
  priority : String
  require_validation : Bool
  validator_count : Nat
deriving DecidableEq, Repr

/-- Modelled from the spec: the result of one routing decision. -/
structure RoutingDecision where
  primary : Option String
  validators : List String
  strategy : String
  candidates_considered : Nat
deriving DecidableEq, Repr

/-- Modelled from the spec: staleness interval for lazy health refresh
(default 30 seconds). -/
def staleness_interval : ℚ := 30

/-- Look a worker up by id (first match in the workers list). -/
def findWorker (reg : Registry) (i : String) : Option Worker :=
  reg.workers.find? (fun x => x.id == i)

/-- The ordered id pool of a category (empty for an unregistered category). -/
def lookupPool (reg : Registry) (cat : String) : List String :=
  (reg.pools.lookup cat).getD []

/-- The round-robin cursor of a category, defaulting to zero. -/
def getCursor (reg : Registry) (cat : String) : Nat :=
  (reg.cursors.lookup cat).getD 0

/-- Overwrite the round-robin cursor of a category. -/
def setCursor (reg : Registry) (cat : String) (n : Nat) : Registry :=
  { reg with cursors := (cat, n) :: reg.cursors }

/-- Apply an id-preserving update to every worker whose id matches. -/
def mapWorker (reg : Registry) (i : String) (f : Worker → Worker) : Registry :=
  { reg with workers := reg.workers.map (fun x => if x.id = i then f x else x) }

/-- Modelled from the spec: the state update a health probe performs on a
worker: on success, status becomes Healthy when current load is strictly
below the maximum, else Degraded; on failure, Unavailable; the probe
timestamp is updated unconditionally. -/
def probeUpdate (w : Worker) (ok : Bool) (now : ℚ) : Worker :=
  { w with
    status :=
      if ok then
        (if w.current_load < w.max_concurrent then NMStatus.healthy
         else NMStatus.degraded)
      else NMStatus.unavailable,
    last_probe := now }

/-- Modelled from the spec: `probe(id)` — returns false immediately on an
unknown id without touching state; otherwise applies `probeUpdate` with the
(injected) random trial outcome `ok` and returns true iff the resulting
status is Healthy. -/
def probe (reg : Registry) (i : String) (ok : Bool) (now : ℚ) :
    Bool × Registry :=
  match findWorker reg i with
  | none => (false, reg)
  | some w =>
      (decide ((probeUpdate w ok now).status = NMStatus.healthy),
       mapWorker reg i (fun x => probeUpdate x ok now))

/-- Modelled from the spec: lazy health refresh of one pooled id — probe it
first when the time since its last probe exceeds the staleness interval. -/
def refreshOne (reg : Registry) (now : ℚ) (ok : Bool) (i : String) : Registry :=
  match findWorker reg i with
  | none => reg
  | some w =>
      if staleness_interval < now - w.last_probe then (probe reg i ok now).2
      else reg

/-- Whether a status admits the worker into the eligible set. -/
def statusEligible : NMStatus → Bool
  | NMStatus.healthy => true
  | NMStatus.degraded => true
  | NMStatus.unavailable => false

/-- Lazily refresh every id of a pool in order. -/
def refreshAll (reg : Registry) (pool : List String) (probeOk : String → Bool)
    (now : ℚ) : Registry :=
  pool.foldl (fun r i => refreshOne r now (probeOk i) i) reg

/-- Modelled from the spec: `eligible(category)` — lazily refresh stale
entries of the category pool, then keep, in pool order, the ids whose status
is Healthy or Degraded. -/
def eligible (reg : Registry) (cat : String) (probeOk : String → Bool)
    (now : ℚ) : List String × Registry :=
  ((lookupPool reg cat).filter (fun i =>
      match findWorker (refreshAll reg (lookupPool reg cat) probeOk now) i with
      | some w => statusEligible w.status
      | none => false),
   refreshAll reg (lookupPool reg cat) probeOk now)

/-- Modelled from the spec: `release(id)` — decrement current load by one,
floored at zero; no-op on an unknown id. -/
def release (reg : Registry) (i : String) : Registry :=
  mapWorker reg i (fun x => { x with current_load := x.current_load - 1 })

/-- Increment a worker's current load by one (capacity reservation). -/
def incLoad (reg : Registry) (i : String) : Registry :=
  mapWorker reg i (fun x => { x with current_load := x.current_load + 1 })

/-- Modelled from the spec: the per-candidate selection score. -/
def score (w : Worker) : ℚ :=
  w.base_weight
    * min 1 (1000 / w.avg_latency_ms)
    * w.accuracy_score
    * max (1 / 10) (1 - (w.current_load : ℚ) / (w.max_concurrent : ℚ))
    * (if w.status = NMStatus.degraded then 1 / 2 else 1)

/-- Sum of the selection scores of a candidate list. -/
def scoreTotal (cands : List Worker) : ℚ :=
  (cands.map score).sum

/-- Modelled from the spec: the roulette-wheel walk — accumulate scores in
input order and return the first candidate whose cumulative sum meets or
exceeds the draw, or the last candidate if none crosses. -/
def walk : List Worker → ℚ → Option Worker
  | [], _ => none
  | [w], _ => some w
  | w :: x :: ws, r =>
      if r ≤ score w then some w else walk (x :: ws) (r - score w)

/-- Modelled from the spec: `weighted_pick(candidates)` — with an injected
uniform draw `u ∈ [0,1)` (scaled to `[0,total)`) and uniform fallback index
`k` used when the score sum is exactly zero. -/
def weighted_pick (cands : List Worker) (u : ℚ) (k : Nat) : Option Worker :=
  match cands with
  | [] => none
  | _ :: _ =>
      if scoreTotal cands = 0 then cands[k % cands.length]?
      else walk cands (u * scoreTotal cands)

/-- Resolve a list of ids against the registry, dropping unknown ids. -/
def lookupAll (reg : Registry) (ids : List String) : List Worker :=
  ids.filterMap (findWorker reg)

/-- Weighted pick over a list of candidate ids, returning the chosen id. -/
def weighted_pick_ids (reg : Registry) (ids : List String) (u : ℚ) (k : Nat) :
    Option String :=
  (weighted_pick (lookupAll reg ids) u k).map (fun w => w.id)

/-- Modelled from the spec: `round_robin_pick(candidates, category)` — the
per-category cursor wraps to zero when out of range, the candidate at the
cursor is returned, and the cursor advances modulo the candidate count.
An empty candidate list yields no selection. -/
def round_robin_pick (reg : Registry) (cands : List String) (cat : String) :
    Option String × Registry :=
  match cands with
  | [] => (none, reg)
  | _ :: _ =>
      let cur := getCursor reg cat
      let idx := if cur < cands.length then cur else 0
      (cands[idx]?, setCursor reg cat ((idx + 1) % cands.length))

/-- Modelled from the spec: priority-dependent primary selection — urgent is
a pure weighted pick, high is a round-robin pick re-scored over the
singleton containing it, anything else is a pure round-robin pick.  Returns
the chosen id, the strategy tag and the updated registry. -/
def pickPrimary (reg1 : Registry) (cands : List String) (cat priority : String)
    (u0 : ℚ) (k0 : Nat) : Option String × String × Registry :=
  if priority = "urgent" then
    (weighted_pick_ids reg1 cands u0 k0, "weighted", reg1)
  else if priority = "high" then
    match (round_robin_pick reg1 cands cat).1 with
    | none =>
        (none, "round_robin_weighted", (round_robin_pick reg1 cands cat).2)
    | some i =>
        (weighted_pick_ids (round_robin_pick reg1 cands cat).2 [i] u0 k0,
         "round_robin_weighted", (round_robin_pick reg1 cands cat).2)
  else
    ((round_robin_pick reg1 cands cat).1, "round_robin",
     (round_robin_pick reg1 cands cat).2)

/-- Modelled from the spec: validation fan-out — repeatedly weighted-pick
from the shrinking pool, remove the pick, increment its load, until the pool
is empty or the requested count is reached.  The oracle streams `us`, `ks`
supply the random draws of the successive picks. -/
def pick_validators : Registry → List String → Nat → (Nat → ℚ) → (Nat → Nat) →
    List String × Registry
  | reg, _, 0, _, _ => ([], reg)
  | reg, pool, Nat.succ n, us, ks =>
      match weighted_pick_ids reg pool (us 0) (ks 0) with
      | none => ([], reg)
      | some i =>
          let pv := pick_validators (incLoad reg i) (pool.erase i) n
            (fun m => us (m + 1)) (fun m => ks (m + 1))
          (i :: pv.1, pv.2)

/-- Modelled from the spec: `route(request)` — list eligible candidates for
the request's category (lazily refreshing health), pick a primary by the
priority-dependent strategy, reserve its load, optionally fan out to
validators, and return the decision with diagnostics.  An empty eligible
set yields the `no_available_workers` decision. -/
def route (reg : Registry) (req : RoutingRequest) (probeOk : String → Bool)
    (now : ℚ) (u0 : ℚ) (k0 : Nat) (us : Nat → ℚ) (ks : Nat → Nat) :
    RoutingDecision × Registry :=
  let er := eligible reg req.category probeOk now
  match er.1 with
  | [] => (⟨none, [], "no_available_workers", 0⟩, er.2)
  | _ :: _ =>
      let pr := pickPrimary er.2 er.1 req.category req.priority u0 k0
      match pr.1 with
      | none => (⟨none, [], pr.2.1, er.1.length⟩, pr.2.2)
      | some p =>
          let reg3 := incLoad pr.2.2 p
          if req.require_validation then
            let pv := pick_validators reg3 (er.1.erase p) req.validator_count
              us ks
            (⟨some p, pv.1, pr.2.1, er.1.length⟩, pv.2)
          else
            (⟨some p, [], pr.2.1, er.1.length⟩, reg3)

/-- All worker ids a decision commits capacity for, primary first. -/
def decisionIds (d : RoutingDecision) : List String :=
  d.primary.toList ++ d.validators

/-- Release every id of a list, in order. -/
def releaseAll (reg : Registry) (ids : List String) : Registry :=
  ids.foldl release reg

/-- The observable load state: id and current load of every worker, in
registry order. -/
def loadView (reg : Registry) : List (String × Nat) :=
  reg.workers.map (fun w => (w.id, w.current_load))

/-! ## HTTP handler layer, embedded from `src/app.py`

The master controller imported by `app.py` is abstracted as a state-passing
function that either returns a value or raises (an `Except.error` standing
for a Python exception).  A handler response is either a 200 JSON result or
an error JSON object `(code, message)`. -/

/-- An HTTP response of the API layer: a 200 result or an error JSON object
carrying the status code and the message placed in the `error` field. -/
inductive Resp (α : Type) where
  | ok (result : α)
  | err (code : Nat) (msg : String)
deriving DecidableEq, Repr

/-- The `/api/status` handler of `src/app.py`: return the controller's
status report, converting any exception into a 500 error object. -/
def get_status {σ α : Type} (statusFn : σ → Except String α) (s : σ) :
    Resp α :=
  match statusFn s with
  | Except.ok st => Resp.ok st
  | Except.error e => Resp.err 500 e

/-- Python's `dict.get(key, default)` over a string-valued JSON object. -/
def getStrD (data : List (String × String)) (k d : String) : String :=
  (data.lookup k).getD d

/-- Python's `str.strip()`: drop leading and trailing whitespace. -/
def strip (s : String) : String :=
  String.mk (((s.data.dropWhile Char.isWhitespace).reverse.dropWhile
    Char.isWhitespace).reverse)

/-- The `/api/query` handler of `src/app.py`: read `query` (stripped),
`domain` (default `medical`) and `priority` (default `normal`) from the JSON
body, reject an empty query with a 400 error, otherwise run the controller;
a missing body or any controller exception becomes a 500 error object.  The
controller threads explicit state `σ` so that "the controller was never
invoked" is observable. -/
def process_query {σ α : Type} (body : Option (List (String × String)))
    (controller : String → String → String → σ → Except String α × σ)
    (s : σ) : Resp α × σ :=
  match body with
  | none => (Resp.err 500 "AttributeError", s)
  | some data =>
      if strip (getStrD data "query" "") = "" then
        (Resp.err 400 "Query is required", s)
      else
        match controller (strip (getStrD data "query" ""))
            (getStrD data "domain" "medical")
            (getStrD data "priority" "normal") s with
        | (Except.ok result, s2) => (Resp.ok result, s2)
        | (Except.error e, s2) => (Resp.err 500 e, s2)

/-- The categories the demo UI and the controller know about. -/
def known_categories : List String :=
  ["medical", "legal", "technical", "financial"]

/-- A controller that records every invocation's arguments in its state;
used to observe what the handler passes through. -/
def spyController (q d p : String) (s : List (String × String × String)) :
    Except String Unit × List (String × String × String) :=
  (Except.ok (), s ++ [(q, d, p)])

/-! ## Load accounting lemmas -/

/-- Increment the load entry of one id in a load view. -/
def incView (v : List (String × Nat)) (i : String) : List (String × Nat) :=
  v.map (fun p => if p.1 = i then (p.1, p.2 + 1) else p)

/-- Decrement (floored at zero) the load entry of one id in a load view. -/
def decView (v : List (String × Nat)) (i : String) : List (String × Nat) :=
  v.map (fun p => if p.1 = i then (p.1, p.2 - 1) else p)

/-- Cumulative score of the first `j + 1` candidates, in input order. -/
def cumScore (cands : List Worker) (j : Nat) : ℚ :=
  ((cands.take (j + 1)).map score).sum

/-- The ids of all registered workers, in registry order. -/
def workerIds (reg : Registry) : List String :=
  reg.workers.map (fun w => w.id)

/-- A concrete healthy worker used to instantiate universally quantified
theorems on explicit inputs. -/
def wA : Worker :=
  ⟨"nm-a", "medical", 9 / 10, 500, 94 / 100, 0, 5, NMStatus.healthy, 0⟩

/-- A second concrete worker. -/
def wB : Worker :=
  ⟨"nm-b", "legal", 85 / 100, 800, 92 / 100, 0, 5, NMStatus.healthy, 0⟩

/-- A third concrete worker. -/
def wC : Worker :=
  ⟨"nm-c", "legal", 9 / 10, 600, 95 / 100, 0, 5, NMStatus.healthy, 0⟩

/-- A concrete registry holding the three demo workers. -/
def regEx : Registry :=
  ⟨[wA, wB, wC],
   [("medical", ["nm-a"]), ("legal", ["nm-b", "nm-c"])],
   [("medical", 0), ("legal", 0)]⟩

theorem loadView_mapWorker (reg : Registry) (i : String) (f : Worker → Worker)
    (hid : ∀ x, (f x).id = x.id)
    (hload : ∀ x, (f x).current_load = x.current_load) :
    loadView (mapWorker reg i f) = loadView reg := by
  have h : ((fun x : Worker => (x.id, x.current_load)) ∘
      fun x => if x.id = i then f x else x)
      = fun x : Worker => (x.id, x.current_load) := by
    funext x
    by_cases hx : x.id = i <;> simp [hx, hid, hload]
  simp [loadView, mapWorker, List.map_map, h]

theorem loadView_probe (reg : Registry) (i : String) (ok : Bool) (now : ℚ) :
    loadView (probe reg i ok now).2 = loadView reg := by
  unfold probe
  cases findWorker reg i with
  | none => rfl
  | some w => exact loadView_mapWorker reg i _ (fun x => rfl) (fun x => rfl)

theorem loadView_refreshOne (reg : Registry) (now : ℚ) (ok : Bool)
    (i : String) : loadView (refreshOne reg now ok i) = loadView reg := by
  unfold refreshOne
  cases findWorker reg i with
  | none => rfl
  | some w =>
      by_cases h : staleness_interval < now - w.last_probe
      · simp [h, loadView_probe]
      · simp [h]

theorem loadView_refreshAll (pool : List String) :
    ∀ (reg : Registry) (probeOk : String → Bool) (now : ℚ),
    loadView (refreshAll reg pool probeOk now) = loadView reg := by
  induction pool with
  | nil => intro reg probeOk now; rfl
  | cons a l ih =>
      intro reg probeOk now
      simp only [refreshAll, List.foldl_cons] at *
      rw [ih, loadView_refreshOne]

theorem loadView_eligible (reg : Registry) (cat : String)
    (probeOk : String → Bool) (now : ℚ) :
    loadView (eligible reg cat probeOk now).2 = loadView reg :=
  loadView_refreshAll (lookupPool reg cat) reg probeOk now

theorem workers_setCursor (reg : Registry) (cat : String) (n : Nat) :
    (setCursor reg cat n).workers = reg.workers := rfl

theorem workers_round_robin_pick (reg : Registry) (cands : List String)
    (cat : String) :
    (round_robin_pick reg cands cat).2.workers = reg.workers := by
  cases cands <;> rfl

theorem workers_pickPrimary (reg1 : Registry) (cands : List String)
    (cat priority : String) (u0 : ℚ) (k0 : Nat) :
    (pickPrimary reg1 cands cat priority u0 k0).2.2.workers = reg1.workers := by
  unfold pickPrimary
  by_cases h1 : priority = "urgent"
  · simp [h1]
  · by_cases h2 : priority = "high"
    · simp only [h1, h2, if_false, if_true]
      cases hr : (round_robin_pick reg1 cands cat).1 <;>
        simp [← workers_round_robin_pick reg1 cands cat]
    · simp [h1, h2, workers_round_robin_pick]

theorem loadView_eq_of_workers {r1 r2 : Registry}
    (h : r1.workers = r2.workers) : loadView r1 = loadView r2 := by
  simp [loadView, h]

theorem loadView_incLoad (reg : Registry) (i : String) :
    loadView (incLoad reg i) = incView (loadView reg) i := by
  unfold loadView incLoad mapWorker incView
  simp only [List.map_map]
  apply List.map_congr_left
  intro x _
  by_cases hx : x.id = i <;> simp [hx]

theorem loadView_release (reg : Registry) (i : String) :
    loadView (release reg i) = decView (loadView reg) i := by
  unfold loadView release mapWorker decView
  simp only [List.map_map]
  apply List.map_congr_left
  intro x _
  by_cases hx : x.id = i <;> simp [hx]

theorem loadView_pick_validators (n : Nat) :
    ∀ (reg : Registry) (pool : List String) (us : Nat → ℚ) (ks : Nat → Nat),
    loadView (pick_validators reg pool n us ks).2
      = (pick_validators reg pool n us ks).1.foldl incView (loadView reg) := by
  induction n with
  | zero => intro reg pool us ks; rfl
  | succ n ih =>
      intro reg pool us ks
      simp only [pick_validators]
      cases h : weighted_pick_ids reg pool (us 0) (ks 0) with
      | none => rfl
      | some i =>
          simp only [List.foldl_cons]
          rw [ih, loadView_incLoad]

theorem loadView_releaseAll (ids : List String) :
    ∀ reg : Registry,
    loadView (releaseAll reg ids) = ids.foldl decView (loadView reg) := by
  induction ids with
  | nil => intro reg; rfl
  | cons a l ih =>
      intro reg
      simp only [releaseAll, List.foldl_cons] at *
      rw [ih, loadView_release]

theorem foldl_incView (ids : List String) :
    ∀ v : List (String × Nat),
    ids.foldl incView v = v.map (fun p => (p.1, p.2 + ids.count p.1)) := by
  induction ids with
  | nil => intro v; simp [List.count_nil]
  | cons i ids ih =>
      intro v
      simp only [List.foldl_cons]
      rw [ih, incView, List.map_map]
      apply List.map_congr_left
      intro p _
      by_cases hp : p.1 = i
      · simp only [Function.comp, hp, if_pos rfl, List.count_cons,
          beq_self_eq_true, if_pos]
        exact congrArg _ (by omega)
      · have hpi : ¬ ((i == p.1) = true) := by
          simp [beq_iff_eq]
          exact fun h => hp h.symm
        simp only [Function.comp, if_neg hp, List.count_cons, if_neg hpi]
        rfl

theorem foldl_decView (ids : List String) :
    ∀ v : List (String × Nat),
    ids.foldl decView v = v.map (fun p => (p.1, p.2 - ids.count p.1)) := by
  induction ids with
  | nil => intro v; simp [List.count_nil]
  | cons i ids ih =>
      intro v
      simp only [List.foldl_cons]
      rw [ih, decView, List.map_map]
      apply List.map_congr_left
      intro p _
      by_cases hp : p.1 = i
      · simp only [Function.comp, hp, if_pos rfl, List.count_cons,
          beq_self_eq_true, if_pos]
        exact congrArg _ (by omega)
      · have hpi : ¬ ((i == p.1) = true) := by
          simp [beq_iff_eq]
          exact fun h => hp h.symm
        simp only [Function.comp, if_neg hp, List.count_cons, if_neg hpi]
        rfl

theorem incView_decView_roundtrip (ids : List String)
    (v : List (String × Nat)) :
    ids.foldl decView (ids.foldl incView v) = v := by
  rw [foldl_incView, foldl_decView, List.map_map]
  have h : ((fun p : String × Nat => (p.1, p.2 - ids.count p.1)) ∘
      fun p : String × Nat => (p.1, p.2 + ids.count p.1))
      = fun p : String × Nat => p := by
    funext p
    simp [Function.comp]
  rw [h, List.map_id']

theorem loadView_route (reg : Registry) (req : RoutingRequest)
    (probeOk : String → Bool) (now u0 : ℚ) (k0 : Nat) (us : Nat → ℚ)
    (ks : Nat → Nat) :
    loadView (route reg req probeOk now u0 k0 us ks).2
      = (decisionIds (route reg req probeOk now u0 k0 us ks).1).foldl incView
          (loadView reg) := by
  have hel := loadView_eligible reg req.category probeOk now
  have hpw : loadView (pickPrimary (eligible reg req.category probeOk now).2
      (eligible reg req.category probeOk now).1 req.category req.priority
      u0 k0).2.2 = loadView reg := by
    rw [loadView_eq_of_workers (workers_pickPrimary _ _ _ _ _ _), hel]
  unfold route
  cases hc : (eligible reg req.category probeOk now).1 with
  | nil =>
      simp only [hc]
      simp [decisionIds, hel]
  | cons a l =>
      rw [hc] at hpw
      simp only [hc]
      cases hp : (pickPrimary (eligible reg req.category probeOk now).2
          (a :: l) req.category req.priority u0 k0).1 with
      | none =>
          simp only [hp]
          simp [decisionIds, hpw]
      | some p =>
          simp only [hp]
          by_cases hv : req.require_validation
          · simp only [hv, if_pos, decisionIds, Option.toList_some,
              List.cons_append, List.nil_append, List.foldl_cons]
            rw [loadView_pick_validators, loadView_incLoad, hpw]
          · simp only [hv, Bool.false_eq_true, if_false, decisionIds,
              Option.toList_some, List.cons_append, List.nil_append,
              List.foldl_cons, List.foldl_nil]
            rw [loadView_incLoad, hpw]

/-- C3: for every decision returned by `route`, including decisions with
validator fan-out, calling `release` exactly once for each worker id
contained in the decision restores every worker's `current_load` (and id)
to its value before the `route` call. -/
theorem route_release_roundtrip (reg : Registry) (req : RoutingRequest)
    (probeOk : String → Bool) (now u0 : ℚ) (k0 : Nat) (us : Nat → ℚ)
    (ks : Nat → Nat) :
    loadView (releaseAll (route reg req probeOk now u0 k0 us ks).2
        (decisionIds (route reg req probeOk now u0 k0 us ks).1))
      = loadView reg := by
  rw [loadView_releaseAll, loadView_route, incView_decView_roundtrip]

/-! ## Selection lemmas -/

theorem walk_mem : ∀ (cands : List Worker) (r : ℚ) (w : Worker),
    walk cands r = some w → w ∈ cands
  | [], _, _ => by simp [walk]
  | [x], r, w => by
      intro h
      simp only [walk, Option.some.injEq] at h
      simp [h]
  | x :: y :: ws, r, w => by
      intro h
      simp only [walk] at h
      by_cases hr : r ≤ score x
      · rw [if_pos hr, Option.some.injEq] at h
        rw [← h]
        exact List.mem_cons_self _ _
      · rw [if_neg hr] at h
        exact List.mem_cons_of_mem _ (walk_mem (y :: ws) (r - score x) w h)

theorem walk_isSome : ∀ (cands : List Worker) (r : ℚ), cands ≠ [] →
    ∃ w, walk cands r = some w
  | [], _, h => absurd rfl h
  | [x], r, _ => ⟨x, by simp [walk]⟩
  | x :: y :: ws, r, _ => by
      by_cases hr : r ≤ score x
      · exact ⟨x, by simp [walk, hr]⟩
      · obtain ⟨w, hw⟩ := walk_isSome (y :: ws) (r - score x) (by simp)
        exact ⟨w, by simp [walk, hr, hw]⟩

theorem weighted_pick_mem (cands : List Worker) (u : ℚ) (k : Nat)
    (w : Worker) (h : weighted_pick cands u k = some w) : w ∈ cands := by
  cases cands with
  | nil => simp [weighted_pick] at h
  | cons a l =>
      simp only [weighted_pick] at h
      by_cases h0 : scoreTotal (a :: l) = 0
      · rw [if_pos h0] at h
        obtain ⟨hlt, rfl⟩ := List.getElem?_eq_some_iff.1 h
        exact List.getElem_mem hlt
      · rw [if_neg h0] at h
        exact walk_mem _ _ _ h

theorem weighted_pick_isSome (cands : List Worker) (u : ℚ) (k : Nat)
    (h : cands ≠ []) : ∃ w, weighted_pick cands u k = some w := by
  cases cands with
  | nil => exact absurd rfl h
  | cons a l =>
      simp only [weighted_pick]
      by_cases h0 : scoreTotal (a :: l) = 0
      · rw [if_pos h0]
        have hlt : k % (a :: l).length < (a :: l).length :=
          Nat.mod_lt _ (by simp)
        exact ⟨_, List.getElem?_eq_getElem hlt⟩
      · rw [if_neg h0]
        exact walk_isSome _ _ (by simp)

theorem weighted_pick_singleton (w : Worker) (u : ℚ) (k : Nat) :
    weighted_pick [w] u k = some w := by
  simp only [weighted_pick]
  by_cases h0 : scoreTotal [w] = 0
  · rw [if_pos h0]
    simp [Nat.mod_one]
  · rw [if_neg h0]
    simp [walk]

theorem cumScore_cons_zero (x : Worker) (t : List Worker) :
    cumScore (x :: t) 0 = score x := by
  simp [cumScore]

theorem cumScore_cons_succ (x : Worker) (t : List Worker) (j : Nat) :
    cumScore (x :: t) (j + 1) = score x + cumScore t j := by
  simp [cumScore, List.take_succ_cons]

theorem walk_cross : ∀ (cands : List Worker) (d : ℚ) (j : Nat),
    j < cands.length →
    (∀ j2, j2 < j → cumScore cands j2 < d) →
    d ≤ cumScore cands j →
    walk cands d = cands[j]?
  | [], _, j, hj, _, _ => by simp at hj
  | [x], d, j, hj, _, _ => by
      have hj0 : j = 0 := by
        simp at hj
        omega
      subst hj0
      simp [walk]
  | x :: y :: ws, d, j, hj, hmin, hcross => by
      by_cases hr : d ≤ score x
      · have hj0 : j = 0 := by
          by_contra hne
          have h0 : cumScore (x :: y :: ws) 0 < d := hmin 0 (by omega)
          rw [cumScore_cons_zero] at h0
          exact absurd hr (not_le.2 h0)
        subst hj0
        simp [walk, hr]
      · have hj0 : j ≠ 0 := by
          intro h0
          subst h0
          rw [cumScore_cons_zero] at hcross
          exact hr hcross
        obtain ⟨j1, rfl⟩ : ∃ j1, j = j1 + 1 := ⟨j - 1, by omega⟩
        have hx : score x < d := by
          have h0 := hmin 0 (by omega)
          rw [cumScore_cons_zero] at h0
          exact h0
        have ih := walk_cross (y :: ws) (d - score x) j1
          (by simp at hj; simp; omega)
          (fun j2 hj2 => by
            have := hmin (j2 + 1) (by omega)
            rw [cumScore_cons_succ] at this
            linarith)
          (by
            rw [cumScore_cons_succ] at hcross
            linarith)
        simp only [walk, if_neg hr]
        rw [ih, List.getElem?_cons_succ]

theorem walk_last : ∀ (cands : List Worker) (d : ℚ), cands ≠ [] →
    (∀ j, j < cands.length → cumScore cands j < d) →
    walk cands d = cands[cands.length - 1]?
  | [], _, h, _ => absurd rfl h
  | [x], d, _, _ => by simp [walk]
  | x :: y :: ws, d, _, hall => by
      have hx : score x < d := by
        have h0 := hall 0 (by simp)
        rw [cumScore_cons_zero] at h0
        exact h0
      have ih := walk_last (y :: ws) (d - score x) (by simp)
        (fun j hj => by
          have := hall (j + 1) (by simp at hj ⊢; omega)
          rw [cumScore_cons_succ] at this
          linarith)
      simp only [walk, if_neg (not_le.2 hx)]
      rw [ih]
      have hlen : (x :: y :: ws).length - 1 = ((y :: ws).length - 1) + 1 := by
        simp
      rw [hlen, List.getElem?_cons_succ]

/-- C1: for every non-empty candidate list, `weighted_pick` returns a member
of that list, and for every non-empty candidate list and category,
`round_robin_pick` returns an element of that list; an empty candidate list
yields no selection from either. -/
theorem selection_validity (cands : List Worker) (u : ℚ) (k : Nat)
    (reg : Registry) (ids : List String) (cat : String) :
    (cands ≠ [] → ∃ w ∈ cands, weighted_pick cands u k = some w) ∧
    weighted_pick [] u k = none ∧
    (ids ≠ [] → ∃ i ∈ ids, (round_robin_pick reg ids cat).1 = some i) ∧
    (round_robin_pick reg [] cat).1 = none := by
  refine ⟨?_, rfl, ?_, rfl⟩
  · intro h
    obtain ⟨w, hw⟩ := weighted_pick_isSome cands u k h
    exact ⟨w, weighted_pick_mem cands u k w hw, hw⟩
  · intro h
    cases ids with
    | nil => exact absurd rfl h
    | cons a l =>
        simp only [round_robin_pick]
        set cur := getCursor reg cat with hcur
        by_cases hlt : cur < (a :: l).length
        · rw [if_pos hlt]
          refine ⟨(a :: l)[cur], List.getElem_mem hlt, ?_⟩
          rw [List.getElem?_eq_getElem hlt]
        · rw [if_neg hlt]
          exact ⟨a, List.mem_cons_self _ _, by simp⟩

/-- Witness for C1 at concrete inputs. -/
theorem selection_validity_witness :
    (∃ w ∈ [wA, wB], weighted_pick [wA, wB] 0 0 = some w) ∧
    ∃ i ∈ ["nm-b", "nm-c"],
      (round_robin_pick regEx ["nm-b", "nm-c"] "legal").1 = some i :=
  ⟨(selection_validity [wA, wB] 0 0 regEx ["nm-b", "nm-c"] "legal").1
      (by simp),
   (selection_validity [wA, wB] 0 0 regEx ["nm-b", "nm-c"] "legal").2.2.1
      (by simp)⟩

/-- C2: `weighted_pick` scores each candidate by the specified formula; a
zero score sum falls back to a uniform pick over the candidates (no division
occurs), otherwise the draw `u * total ∈ [0, total)` selects the first
candidate in input order whose cumulative score meets or exceeds it, the
last candidate serving as the fallback when none crosses. -/
theorem weighted_pick_characterization (cands : List Worker) (u : ℚ)
    (k : Nat) (hne : cands ≠ []) :
    (∀ w : Worker, score w
        = w.base_weight * min 1 (1000 / w.avg_latency_ms) * w.accuracy_score
          * max (1 / 10) (1 - (w.current_load : ℚ) / (w.max_concurrent : ℚ))
          * (if w.status = NMStatus.degraded then 1 / 2 else 1)) ∧
    (scoreTotal cands = 0 →
      weighted_pick cands u k = cands[k % cands.length]?) ∧
    (scoreTotal cands ≠ 0 →
      (∀ j, j < cands.length →
        (∀ j2, j2 < j → cumScore cands j2 < u * scoreTotal cands) →
        u * scoreTotal cands ≤ cumScore cands j →
        weighted_pick cands u k = cands[j]?) ∧
      ((∀ j, j < cands.length → cumScore cands j < u * scoreTotal cands) →
        weighted_pick cands u k = cands[cands.length - 1]?)) := by
  refine ⟨fun w => rfl, ?_, ?_⟩
  · intro h0
    cases cands with
    | nil => exact absurd rfl hne
    | cons a l => simp [weighted_pick, h0]
  · intro h0
    cases cands with
    | nil => exact absurd rfl hne
    | cons a l =>
        constructor
        · intro j hj hmin hcross
          simp only [weighted_pick, if_neg h0]
          exact walk_cross (a :: l) (u * scoreTotal (a :: l)) j hj hmin hcross
        · intro hall
          simp only [weighted_pick, if_neg h0]
          exact walk_last (a :: l) (u * scoreTotal (a :: l)) (by simp) hall

/-- Witness for C2 at concrete inputs: with draw zero the first candidate
crosses immediately. -/
theorem weighted_pick_characterization_witness :
    weighted_pick [wA, wB] 0 0 = some wA := by
  have hs : NMStatus.healthy ≠ NMStatus.degraded := by decide
  have hne : scoreTotal [wA, wB] ≠ 0 := by
    norm_num [scoreTotal, score, wA, wB, min_def, max_def, hs]
  have h := (weighted_pick_characterization [wA, wB] 0 0 (by simp)).2.2 hne
  have h2 := h.1 0 (by simp)
    (fun j2 hj2 => absurd hj2 (Nat.not_lt_zero j2))
    (by norm_num [cumScore, score, wA, min_def, max_def, hs])
  rw [h2]
  simp

/-! ## Registry-level lemmas -/

theorem findWorker_id {reg : Registry} {i : String} {w : Worker}
    (h : findWorker reg i = some w) : w.id = i := by
  unfold findWorker at h
  have h2 := List.find?_some h
  exact eq_of_beq h2

theorem mem_lookupAll {reg : Registry} {ids : List String} {w : Worker}
    (h : w ∈ lookupAll reg ids) : w.id ∈ ids := by
  obtain ⟨j, hj, hfw⟩ := List.mem_filterMap.1 h
  rw [findWorker_id hfw]
  exact hj

theorem lookupAll_ne_nil {reg : Registry} {ids : List String}
    (hne : ids ≠ []) (hres : ∀ j ∈ ids, (findWorker reg j).isSome) :
    lookupAll reg ids ≠ [] := by
  cases ids with
  | nil => exact absurd rfl hne
  | cons a l =>
      obtain ⟨w, hw⟩ :=
        Option.isSome_iff_exists.1 (hres a (List.mem_cons_self a l))
      simp [lookupAll, List.filterMap_cons, hw]

theorem weighted_pick_ids_mem {reg : Registry} {ids : List String} {u : ℚ}
    {k : Nat} {i : String} (h : weighted_pick_ids reg ids u k = some i) :
    i ∈ ids := by
  unfold weighted_pick_ids at h
  obtain ⟨w, hw, hwi⟩ := Option.map_eq_some'.1 h
  rw [← hwi]
  exact mem_lookupAll (weighted_pick_mem _ _ _ _ hw)

theorem weighted_pick_ids_isSome {reg : Registry} {ids : List String}
    (u : ℚ) (k : Nat) (hne : ids ≠ [])
    (hres : ∀ j ∈ ids, (findWorker reg j).isSome) :
    ∃ i, weighted_pick_ids reg ids u k = some i := by
  obtain ⟨w, hw⟩ := weighted_pick_isSome (lookupAll reg ids) u k
    (lookupAll_ne_nil hne hres)
  exact ⟨w.id, by simp [weighted_pick_ids, hw]⟩

theorem findWorker_eq_of_workers {r1 r2 : Registry}
    (h : r1.workers = r2.workers) (i : String) :
    findWorker r1 i = findWorker r2 i := by
  simp [findWorker, h]

theorem weighted_pick_ids_singleton {reg : Registry} {i : String}
    {w : Worker} (h : findWorker reg i = some w) (u : ℚ) (k : Nat) :
    weighted_pick_ids reg [i] u k = some i := by
  have hl : lookupAll reg [i] = [w] := by simp [lookupAll, h]
  simp [weighted_pick_ids, hl, weighted_pick_singleton, findWorker_id h]

theorem mem_eligible {reg : Registry} {cat : String}
    {probeOk : String → Bool} {now : ℚ} {i : String}
    (h : i ∈ (eligible reg cat probeOk now).1) :
    ∃ w, findWorker (eligible reg cat probeOk now).2 i = some w ∧
      statusEligible w.status = true := by
  simp only [eligible] at h ⊢
  obtain ⟨_, hp⟩ := List.mem_filter.1 h
  cases hfw : findWorker (refreshAll reg (lookupPool reg cat) probeOk now) i
    with
  | none => rw [hfw] at hp; exact absurd hp (by simp)
  | some w => rw [hfw] at hp; exact ⟨w, rfl, hp⟩

theorem eligible_nodup {reg : Registry} {cat : String}
    {probeOk : String → Bool} {now : ℚ}
    (h : (lookupPool reg cat).Nodup) :
    (eligible reg cat probeOk now).1.Nodup :=
  List.Nodup.filter _ h

theorem workerIds_mapWorker (reg : Registry) (i : String)
    (f : Worker → Worker) (hid : ∀ x, (f x).id = x.id) :
    workerIds (mapWorker reg i f) = workerIds reg := by
  have h : ((fun x : Worker => x.id) ∘ fun x => if x.id = i then f x else x)
      = fun x : Worker => x.id := by
    funext x
    by_cases hx : x.id = i <;> simp [hx, hid]
  simp [workerIds, mapWorker, List.map_map, h]

theorem workerIds_incLoad (reg : Registry) (i : String) :
    workerIds (incLoad reg i) = workerIds reg :=
  workerIds_mapWorker reg i _ (fun _ => rfl)

theorem workerIds_eq_of_workers {r1 r2 : Registry}
    (h : r1.workers = r2.workers) : workerIds r1 = workerIds r2 := by
  simp [workerIds, h]

theorem findWorker_isSome_iff (reg : Registry) (i : String) :
    (findWorker reg i).isSome ↔ i ∈ workerIds reg := by
  unfold findWorker workerIds
  rw [List.find?_isSome]
  simp [beq_iff_eq, List.mem_map]

theorem rr_mem {reg : Registry} {cands : List String} {cat i : String}
    (h : (round_robin_pick reg cands cat).1 = some i) : i ∈ cands := by
  cases cands with
  | nil => simp [round_robin_pick] at h
  | cons a l =>
      simp only [round_robin_pick] at h
      obtain ⟨hlt, rfl⟩ := List.getElem?_eq_some_iff.1 h
      exact List.getElem_mem hlt

theorem rr_isSome (reg : Registry) (cat : String) (a : String)
    (l : List String) :
    ∃ i, (round_robin_pick reg (a :: l) cat).1 = some i := by
  simp only [round_robin_pick]
  by_cases hlt : getCursor reg cat < (a :: l).length
  · rw [if_pos hlt]
    exact ⟨_, List.getElem?_eq_getElem hlt⟩
  · rw [if_neg hlt]
    exact ⟨a, by simp⟩

theorem pickPrimary_mem {reg1 : Registry} {cands : List String}
    {cat priority : String} {u0 : ℚ} {k0 : Nat} {p : String}
    (h : (pickPrimary reg1 cands cat priority u0 k0).1 = some p) :
    p ∈ cands := by
  unfold pickPrimary at h
  by_cases h1 : priority = "urgent"
  · rw [if_pos h1] at h
    exact weighted_pick_ids_mem h
  · rw [if_neg h1] at h
    by_cases h2 : priority = "high"
    · rw [if_pos h2] at h
      cases hr : (round_robin_pick reg1 cands cat).1 with
      | none => rw [hr] at h; simp at h
      | some i =>
          rw [hr] at h
          have hpi : p ∈ [i] := weighted_pick_ids_mem h
          have : p = i := by simpa using hpi
          subst this
          exact rr_mem hr
    · rw [if_neg h2] at h
      exact rr_mem h

theorem pick_validators_spec : ∀ (n : Nat) (reg : Registry)
    (pool : List String) (us : Nat → ℚ) (ks : Nat → Nat),
    pool.Nodup → (∀ j ∈ pool, j ∈ workerIds reg) →
    (pick_validators reg pool n us ks).1.Nodup ∧
    (∀ v ∈ (pick_validators reg pool n us ks).1, v ∈ pool) ∧
    (pick_validators reg pool n us ks).1.length = min n pool.length
  | 0, reg, pool, us, ks => by
      intro _ _
      simp [pick_validators]
  | Nat.succ n, reg, pool, us, ks => by
      intro hnd hres
      by_cases hp : pool = []
      · subst hp
        simp [pick_validators, weighted_pick_ids, lookupAll, weighted_pick]
      · obtain ⟨i, hi⟩ := weighted_pick_ids_isSome (us 0) (ks 0) hp
          (fun j hj => (findWorker_isSome_iff reg j).2 (hres j hj))
        have himem : i ∈ pool := weighted_pick_ids_mem hi
        obtain ⟨ih1, ih2, ih3⟩ := pick_validators_spec n (incLoad reg i)
          (pool.erase i) (fun m => us (m + 1)) (fun m => ks (m + 1))
          (List.Nodup.erase i hnd)
          (fun j hj => by
            rw [workerIds_incLoad]
            exact hres j (List.erase_subset _ _ hj))
        simp only [pick_validators, hi]
        refine ⟨?_, ?_, ?_⟩
        · refine List.nodup_cons.2 ⟨?_, ih1⟩
          intro hin
          exact ((List.Nodup.mem_erase_iff hnd).1 (ih2 i hin)).1 rfl
        · intro v hv
          rcases List.mem_cons.1 hv with rfl | hv2
          · exact himem
          · exact List.erase_subset _ _ (ih2 v hv2)
        · simp only [List.length_cons, ih3,
            List.length_erase_of_mem himem]
          have hlen : pool.length ≠ 0 := by
            cases pool
            · exact absurd rfl hp
            · simp
          omega

/-- C4: for every routing decision with validation requested, the validator
list contains no duplicate ids and never contains the primary id; and
whenever the requested validator count meets or exceeds the available pool
(eligible candidates minus the primary), the returned validator list length
equals the available pool size, not the requested count. -/
theorem validator_distinctness (reg : Registry) (req : RoutingRequest)
    (probeOk : String → Bool) (now u0 : ℚ) (k0 : Nat) (us : Nat → ℚ)
    (ks : Nat → Nat) (hnd : (lookupPool reg req.category).Nodup) :
    (route reg req probeOk now u0 k0 us ks).1.validators.Nodup ∧
    (∀ p, (route reg req probeOk now u0 k0 us ks).1.primary = some p →
      p ∉ (route reg req probeOk now u0 k0 us ks).1.validators) ∧
    (∀ p, (route reg req probeOk now u0 k0 us ks).1.primary = some p →
      req.require_validation = true →
      ((eligible reg req.category probeOk now).1.erase p).length
        ≤ req.validator_count →
      (route reg req probeOk now u0 k0 us ks).1.validators.length
        = ((eligible reg req.category probeOk now).1.erase p).length) := by
  have hcnd : (eligible reg req.category probeOk now).1.Nodup :=
    eligible_nodup hnd
  unfold route
  cases hc : (eligible reg req.category probeOk now).1 with
  | nil =>
      simp [hc]
  | cons a l =>
      rw [hc] at hcnd
      simp only [hc]
      cases hp : (pickPrimary (eligible reg req.category probeOk now).2
          (a :: l) req.category req.priority u0 k0).1 with
      | none => simp [hp]
      | some p0 =>
          simp only [hp]
          have hmem : p0 ∈ a :: l := pickPrimary_mem hp
          by_cases hv : req.require_validation
          · simp only [hv, if_pos]
            have hres : ∀ j ∈ (a :: l).erase p0,
                j ∈ workerIds (incLoad (pickPrimary
                  (eligible reg req.category probeOk now).2 (a :: l)
                  req.category req.priority u0 k0).2.2 p0) := by
              intro j hj
              have hj2 : j ∈ a :: l := List.erase_subset _ _ hj
              have hj3 : j ∈ (eligible reg req.category probeOk now).1 := by
                rw [hc]
                exact hj2
              obtain ⟨w, hw, _⟩ := mem_eligible hj3
              rw [workerIds_incLoad,
                workerIds_eq_of_workers (workers_pickPrimary _ _ _ _ _ _)]
              exact (findWorker_isSome_iff _ j).1 (by simp [hw])
            obtain ⟨s1, s2, s3⟩ := pick_validators_spec req.validator_count
              (incLoad (pickPrimary (eligible reg req.category probeOk now).2
                (a :: l) req.category req.priority u0 k0).2.2 p0)
              ((a :: l).erase p0) us ks (hcnd.erase p0) hres
            refine ⟨s1, ?_, ?_⟩
            · intro p hpe hin
              have hps : p0 = p := by simpa using hpe
              subst hps
              exact ((List.Nodup.mem_erase_iff hcnd).1 (s2 p0 hin)).1 rfl
            · intro p hpe _ hle
              have hps : p0 = p := by simpa using hpe
              subst hps
              rw [s3]
              exact Nat.min_eq_right hle
          · simp only [hv, Bool.false_eq_true, if_false]
            refine ⟨List.nodup_nil, ?_, ?_⟩
            · intro p _
              exact List.not_mem_nil p
            · intro p _ hreq _
              exact absurd hreq (by simp [hv])

/-- Witness for C4: the concrete demo registry has a duplicate-free pool,
and the theorem applies to it. -/
theorem validator_distinctness_witness :
    (route regEx ⟨"r-4", "legal", "urgent", true, 5⟩ (fun _ => true) 10 0 0
      (fun _ => 0) (fun _ => 0)).1.validators.Nodup :=
  (validator_distinctness regEx ⟨"r-4", "legal", "urgent", true, 5⟩
    (fun _ => true) 10 0 0 (fun _ => 0) (fun _ => 0) (by decide)).1

/-- C5: routing a request with priority `high` selects the same primary
worker as the plain round-robin strategy used for priority `normal`: the
weighted re-scoring over the singleton containing the round-robin choice is
a no-op. -/
theorem high_priority_equals_round_robin (reg : Registry) (rid cat : String)
    (val : Bool) (vc : Nat) (probeOk : String → Bool) (now u0 : ℚ)
    (k0 : Nat) (us : Nat → ℚ) (ks : Nat → Nat) :
    (route reg ⟨rid, cat, "high", val, vc⟩ probeOk now u0 k0 us ks).1.primary
      = (route reg ⟨rid, cat, "normal", val, vc⟩ probeOk now u0 k0 us
          ks).1.primary := by
  unfold route
  cases hc : (eligible reg cat probeOk now).1 with
  | nil => simp [hc]
  | cons a l =>
      obtain ⟨ri, hri⟩ :=
        rr_isSome (eligible reg cat probeOk now).2 cat a l
      have hmem : ri ∈ a :: l := rr_mem hri
      have hm2 : ri ∈ (eligible reg cat probeOk now).1 := by
        rw [hc]
        exact hmem
      obtain ⟨w, hw, _⟩ := mem_eligible hm2
      have hw2 : findWorker
          (round_robin_pick (eligible reg cat probeOk now).2 (a :: l)
            cat).2 ri = some w := by
        rw [findWorker_eq_of_workers (workers_round_robin_pick _ _ _) ri]
        exact hw
      have hh : (pickPrimary (eligible reg cat probeOk now).2 (a :: l) cat
          "high" u0 k0).1 = some ri := by
        unfold pickPrimary
        rw [if_neg (by decide), if_pos rfl]
        simp only [hri]
        exact weighted_pick_ids_singleton hw2 u0 k0
      have hn : (pickPrimary (eligible reg cat probeOk now).2 (a :: l) cat
          "normal" u0 k0).1 = some ri := by
        unfold pickPrimary
        rw [if_neg (by decide), if_neg (by decide)]
        exact hri
      simp only [hc, hh, hn]
      by_cases hval : val <;> simp [hval]

/-- C6: whenever the eligible set for the requested category is empty
(including an unregistered category), `route` returns the decision with no
primary, an empty validator list and the deterministic
`no_available_workers` strategy tag; being a total function it raises no
exception. -/
theorem no_available_workers_decision (reg : Registry)
    (req : RoutingRequest) (probeOk : String → Bool) (now u0 : ℚ) (k0 : Nat)
    (us : Nat → ℚ) (ks : Nat → Nat)
    (h : (eligible reg req.category probeOk now).1 = []) :
    (route reg req probeOk now u0 k0 us ks).1
      = ⟨none, [], "no_available_workers", 0⟩ := by
  simp [route, h]

/-- Witness for C6: an unregistered category on the demo registry. -/
theorem no_available_workers_decision_witness :
    (route regEx ⟨"r-6", "alchemy", "normal", false, 1⟩ (fun _ => true) 10 0
      0 (fun _ => 0) (fun _ => 0)).1
      = ⟨none, [], "no_available_workers", 0⟩ :=
  no_available_workers_decision regEx ⟨"r-6", "alchemy", "normal", false, 1⟩
    (fun _ => true) 10 0 0 (fun _ => 0) (fun _ => 0) rfl

theorem findWorker_mapWorker_self (reg : Registry) (i : String)
    (f : Worker → Worker) (hid : ∀ x, (f x).id = x.id) :
    findWorker (mapWorker reg i f) i
      = (findWorker reg i).map (fun x => if x.id = i then f x else x) := by
  unfold findWorker mapWorker
  have h : ((fun x : Worker => x.id == i) ∘
      fun x => if x.id = i then f x else x)
      = fun x : Worker => x.id == i := by
    funext x
    by_cases hx : x.id = i <;> simp [Function.comp, hx, hid]
  rw [List.find?_map, h]

/-- C7: `probe` returns false immediately on an unknown id without mutating
any state; on a known id it updates the probe timestamp unconditionally and
returns true if and only if the worker's resulting status is Healthy. -/
theorem probe_contract (reg : Registry) (i : String) (ok : Bool) (now : ℚ) :
    (findWorker reg i = none → probe reg i ok now = (false, reg)) ∧
    (∀ w, findWorker reg i = some w →
      ∃ w2, findWorker (probe reg i ok now).2 i = some w2 ∧
        w2.last_probe = now ∧
        ((probe reg i ok now).1 = true ↔ w2.status = NMStatus.healthy)) := by
  constructor
  · intro h
    simp [probe, h]
  · intro w h
    refine ⟨probeUpdate w ok now, ?_, rfl, ?_⟩
    · simp only [probe, h]
      rw [findWorker_mapWorker_self reg i (fun x => probeUpdate x ok now)
        (fun x => rfl), h]
      simp [findWorker_id h]
    · simp only [probe, h]
      exact decide_eq_true_iff

/-- Witness for C7: an unknown id and a known id on the demo registry. -/
theorem probe_contract_witness :
    probe regEx "nm-zzz" true 5 = (false, regEx) ∧
    ∃ w2, findWorker (probe regEx "nm-a" true 5).2 "nm-a" = some w2 ∧
      w2.last_probe = 5 ∧
      ((probe regEx "nm-a" true 5).1 = true ↔
        w2.status = NMStatus.healthy) :=
  ⟨(probe_contract regEx "nm-zzz" true 5).1 rfl,
   (probe_contract regEx "nm-a" true 5).2 wA rfl⟩

/-! ## HTTP handler claims -/

/-- C8 counterexample: a supplied but unknown `domain` value is passed
through to the controller unvalidated, so the routing core is not only ever
invoked with a valid, known category. -/
theorem category_not_validated_cex :
    (process_query (some [("query", "hi"), ("domain", "alchemy")])
      spyController []).2 = [("hi", "alchemy", "normal")] ∧
    "alchemy" ∉ known_categories := by
  constructor
  · decide
  · decide

/-- C8 (amended): the query handler defaults a missing `domain` key to
`medical` and a missing `priority` key to `normal` before invoking the
controller, but performs no validation: a supplied `domain` value is passed
through as-is, so the controller, not the handler, sees any unknown
category. -/
theorem category_defaulting {σ α : Type}
    (controller : String → String → String → σ → Except String α × σ)
    (s : σ) (data : List (String × String))
    (hd : data.lookup "domain" = none)
    (hp : data.lookup "priority" = none)
    (hq : strip (getStrD data "query" "") ≠ "") :
    process_query (some data) controller s
      = match controller (strip (getStrD data "query" "")) "medical"
            "normal" s with
        | (Except.ok r, s2) => (Resp.ok r, s2)
        | (Except.error e, s2) => (Resp.err 500 e, s2) := by
  have hq2 : ¬ strip ((data.lookup "query").getD "") = "" := by
    simpa [getStrD] using hq
  simp only [process_query, getStrD, hd, hp, Option.getD_none, if_neg hq2]

/-- Witness for the amended C8 at a concrete body with both keys missing. -/
theorem category_defaulting_witness :
    process_query (some [("query", "hi")]) spyController []
      = (Resp.ok (), [("hi", "medical", "normal")]) := by
  rw [category_defaulting spyController [] [("query", "hi")] rfl rfl
    (by decide)]
  rfl

/-- C9: a POST body with no `query` field, or whose `query` strips to the
empty string, is rejected with HTTP 400 and the message `Query is required`;
the controller is never invoked and its state is unchanged. -/
theorem empty_query_rejected {σ α : Type}
    (controller : String → String → String → σ → Except String α × σ)
    (s : σ) (data : List (String × String))
    (h : data.lookup "query" = none ∨
      ∃ q, data.lookup "query" = some q ∧ strip q = "") :
    process_query (some data) controller s
      = (Resp.err 400 "Query is required", s) := by
  have hq : strip (getStrD data "query" "") = "" := by
    rcases h with h | ⟨q, hq1, hq2⟩
    · simp only [getStrD, h, Option.getD_none]
      rfl
    · simp only [getStrD, hq1, Option.getD_some]
      exact hq2
  simp only [process_query, if_pos hq]

/-- Witness for C9 at a whitespace-only query. -/
theorem empty_query_rejected_witness :
    process_query (some [("query", "   ")]) spyController []
      = (Resp.err 400 "Query is required", []) :=
  empty_query_rejected spyController [] [("query", "   ")]
    (Or.inr ⟨"   ", rfl, by decide⟩)

/-- C10: the status and query handlers convert every exception raised while
computing the response into an error JSON object with HTTP status 500 (the
only other non-200 outcome being the 400 query-required response), and
neither handler propagates an exception. -/
theorem handlers_catch_exceptions {σ τ α β : Type}
    (statusFn : σ → Except String α) (s : σ)
    (body : Option (List (String × String)))
    (controller : String → String → String → τ → Except String β × τ)
    (t : τ) :
    (∀ e, statusFn s = Except.error e →
      get_status statusFn s = Resp.err 500 e) ∧
    ((∃ a, get_status statusFn s = Resp.ok a) ∨
      ∃ e, get_status statusFn s = Resp.err 500 e) ∧
    (body = none →
      process_query body controller t = (Resp.err 500 "AttributeError", t)) ∧
    (∀ data e t2, body = some data →
      controller (strip (getStrD data "query" ""))
          (getStrD data "domain" "medical")
          (getStrD data "priority" "normal") t = (Except.error e, t2) →
      strip (getStrD data "query" "") ≠ "" →
      process_query body controller t = (Resp.err 500 e, t2)) ∧
    ((∃ r t2, process_query body controller t = (Resp.ok r, t2)) ∨
      (process_query body controller t).1
        = Resp.err 400 "Query is required" ∨
      ∃ e t2, process_query body controller t = (Resp.err 500 e, t2)) := by
  refine ⟨?_, ?_, ?_, ?_, ?_⟩
  · intro e he
    simp [get_status, he]
  · cases hst : statusFn s with
    | ok a => exact Or.inl ⟨a, by simp [get_status, hst]⟩
    | error e => exact Or.inr ⟨e, by simp [get_status, hst]⟩
  · intro hb
    subst hb
    rfl
  · intro data e t2 hb hc hq
    subst hb
    simp only [process_query, if_neg hq, hc]
  · cases body with
    | none => exact Or.inr (Or.inr ⟨"AttributeError", t, rfl⟩)
    | some data =>
        by_cases hq : strip (getStrD data "query" "") = ""
        · exact Or.inr (Or.inl (by simp [process_query, hq]))
        · cases hco : controller (strip (getStrD data "query" ""))
            (getStrD data "domain" "medical")
            (getStrD data "priority" "normal") t with
          | mk res t2 =>
              cases res with
              | ok r =>
                  exact Or.inl ⟨r, t2,
                    by simp only [process_query, if_neg hq, hco]⟩
              | error e =>
                  exact Or.inr (Or.inr ⟨e, t2,
                    by simp only [process_query, if_neg hq, hco]⟩)

/-- Witness for C10: a raising status source and a raising controller. -/
theorem handlers_catch_exceptions_witness :
    get_status (fun _ : Unit => (Except.error "boom" : Except String Nat)) ()
      = Resp.err 500 "boom" ∧
    process_query (some [("query", "hi")])
      (fun _ _ _ (t : Unit) => ((Except.error "down" : Except String Nat), t))
      () = (Resp.err 500 "down", ()) :=
  ⟨(handlers_catch_exceptions
      (fun _ : Unit => (Except.error "boom" : Except String Nat)) ()
      (some [("query", "hi")])
      (fun _ _ _ (t : Unit) => ((Except.error "down" : Except String Nat), t))
      ()).1 "boom" rfl,
   (handlers_catch_exceptions
      (fun _ : Unit => (Except.error "boom" : Except String Nat)) ()
      (some [("query", "hi")])
      (fun _ _ _ (t : Unit) => ((Except.error "down" : Except String Nat), t))
      ()).2.2.2.1 [("query", "hi")] "down" () rfl rfl (by decide)⟩

end ADP
